import Mathlib

/-!
Shallow embedding of the bookmark-tree reconciliation and snapshot/rollback
engine of the ai-smart-bookmark-organizer extension.

Sources embedded here:
- the tree model helpers (`flattenBookmarks`, `isSystemFolder`, `getAllFolders`,
  `getBookmarkStats`) from the bookmarks hook module;
- the apply step of the batch-organize component (`handleApplyChanges`,
  `findBookmarkBarId`);
- the batch dispatcher (`getOrganizeSuggestions`) from the AI service;
- the restore engine (`restoreBookmarksFromSnapshot`, `createBookmarkFromNode`)
  and the tag index (`addTagsToBookmark`, `removeTagFromBookmark`) from the
  storage service.

External effects (chrome.bookmarks.create / move, IndexedDB puts) are modelled
by recording the calls the code issues, with fresh ids supplied by an oracle
`fresh : Nat → String`; the response of the external classifier is modelled by
an oracle indexed by batch number.
-/

/--
One entry of the hierarchical bookmark tree, mirroring the TypeScript
`BookmarkNode` interface: `id`, optional `parentId`, `title`, optional `url`,
the Chrome-specific optional `folderType` marker, and an optional ordered
children list.  `children` is kept as `Option (List _)` because the source
distinguishes an absent children field from an empty one (`if (node.children)`
is false for `undefined` but true for `[]`).
-/
inductive BookmarkNode where
  | mk (id : String) (parentId : Option String) (title : String)
      (url : Option String) (folderType : Option String)
      (children : Option (List BookmarkNode))

def BookmarkNode.id : BookmarkNode → String
  | .mk i _ _ _ _ _ => i

def BookmarkNode.parentId : BookmarkNode → Option String
  | .mk _ p _ _ _ _ => p

def BookmarkNode.title : BookmarkNode → String
  | .mk _ _ t _ _ _ => t

def BookmarkNode.url : BookmarkNode → Option String
  | .mk _ _ _ u _ _ => u

def BookmarkNode.folderType : BookmarkNode → Option String
  | .mk _ _ _ _ ft _ => ft

def BookmarkNode.children : BookmarkNode → Option (List BookmarkNode)
  | .mk _ _ _ _ _ c => c

/-- JavaScript truthiness of an optional string: `undefined` and `""` are falsy. -/
def truthyStr : Option String → Bool
  | none => false
  | some s => !s.isEmpty

/-- `SYSTEM_FOLDER_IDS = ['0']` from the bookmarks hook module. -/
def SYSTEM_FOLDER_IDS : List String := ["0"]

/-- `SYSTEM_FOLDER_TYPES = ['bookmarks-bar', 'other', 'mobile']`. -/
def SYSTEM_FOLDER_TYPES : List String := ["bookmarks-bar", "other", "mobile"]

/--
`isSystemFolder` from the bookmarks hook module, checks in source order:
root id, parent-is-root, truthy `folderType` contained in the known system
types, and the known-ids fallback.  (The TypeScript `if (!node) return true`
null guard has no counterpart: nodes here are always present.)
-/
def isSystemFolder (node : BookmarkNode) : Bool :=
  if node.id == "0" then true
  else if node.parentId == some "0" then true
  else if truthyStr node.folderType
          && SYSTEM_FOLDER_TYPES.contains (node.folderType.getD "") then true
  else if SYSTEM_FOLDER_IDS.contains node.id then true
  else false

mutual

/-- The `traverse` closure of `flattenBookmarks`: push the node if it has a
URL, then recurse into its children (if the children field is present). -/
def flattenNode : BookmarkNode → List BookmarkNode
  | .mk i p t u ft c =>
      (if u.isSome then [BookmarkNode.mk i p t u ft c] else [])
        ++ flattenChildren c

def flattenChildren : Option (List BookmarkNode) → List BookmarkNode
  | none => []
  | some l => flattenList l

def flattenList : List BookmarkNode → List BookmarkNode
  | [] => []
  | n :: ns => flattenNode n ++ flattenList ns

end

/-- `flattenBookmarks(nodes)`: pre-order collection of all URL-bearing nodes. -/
def flattenBookmarks (nodes : List BookmarkNode) : List BookmarkNode :=
  flattenList nodes

mutual

/-- The `traverse` closure of `getAllFolders`: collect nodes that have no URL
and are not system folders, recursing into children. -/
def foldersNode : BookmarkNode → List BookmarkNode
  | .mk i p t u ft c =>
      (if !(BookmarkNode.mk i p t u ft c).url.isSome
          && !isSystemFolder (BookmarkNode.mk i p t u ft c)
        then [BookmarkNode.mk i p t u ft c] else [])
        ++ foldersChildren c

def foldersChildren : Option (List BookmarkNode) → List BookmarkNode
  | none => []
  | some l => foldersList l

def foldersList : List BookmarkNode → List BookmarkNode
  | [] => []
  | n :: ns => foldersNode n ++ foldersList ns

end

/-- `getAllFolders(nodes)`: all non-URL, non-system folders, pre-order. -/
def getAllFolders (nodes : List BookmarkNode) : List BookmarkNode :=
  foldersList nodes

/-- Result record of `getBookmarkStats`. -/
structure BookmarkStats where
  bookmarkCount : Nat
  folderCount : Nat
  maxDepth : Nat
deriving DecidableEq, Repr

mutual

/-- The `traverse(node, depth)` closure of `getBookmarkStats`, threading the
three mutable counters as a `BookmarkStats` accumulator.  A system folder is
not counted and its children restart at depth 0; otherwise the node is counted
as bookmark or folder, `maxDepth` is raised to `depth`, and children are
visited at `depth + 1`. -/
def statsNode (s : BookmarkStats) (depth : Nat) : BookmarkNode → BookmarkStats
  | .mk i p t u ft c =>
      if isSystemFolder (BookmarkNode.mk i p t u ft c) then
        statsChildren s 0 c
      else
        let s1 := if u.isSome
          then { s with bookmarkCount := s.bookmarkCount + 1 }
          else { s with folderCount := s.folderCount + 1 }
        let s2 := { s1 with maxDepth := max s1.maxDepth depth }
        statsChildren s2 (depth + 1) c

def statsChildren (s : BookmarkStats) (depth : Nat) :
    Option (List BookmarkNode) → BookmarkStats
  | none => s
  | some l => statsList s depth l

def statsList (s : BookmarkStats) (depth : Nat) :
    List BookmarkNode → BookmarkStats
  | [] => s
  | n :: ns => statsList (statsNode s depth n) depth ns

end

/-- `getBookmarkStats(nodes)`: counters start at zero, every top-level node is
visited at depth 0. -/
def getBookmarkStats (nodes : List BookmarkNode) : BookmarkStats :=
  statsList ⟨0, 0, 0⟩ 0 nodes

mutual

/-- All nodes of a subtree (the node itself and, recursively, its children);
used to state hypotheses ranging over every node of a tree. -/
def nodesOfNode : BookmarkNode → List BookmarkNode
  | .mk i p t u ft c => BookmarkNode.mk i p t u ft c :: nodesOfChildren c

def nodesOfChildren : Option (List BookmarkNode) → List BookmarkNode
  | none => []
  | some l => nodesOfList l

def nodesOfList : List BookmarkNode → List BookmarkNode
  | [] => []
  | n :: ns => nodesOfNode n ++ nodesOfList ns

end

/--
`findBookmarkBarId` from the batch-organize component, translated exactly:
iterate over the nodes; a node titled `书签栏` or `Bookmarks Bar` returns its
id; otherwise, when the node has a children field, recurse into the children
and return that result if truthy (the recursion returns the fallback `'1'` when
it finds no match, and `'1'` is truthy, so the very first node with a children
field whose subtree lacks a matching title already makes the whole search
return `'1'` without examining the remaining siblings); when the loop
exhausts the list the fallback `'1'` is returned.
-/
def findBookmarkBarId : List BookmarkNode → String
  | [] => "1"
  | .mk i _ t _ _ c :: ns =>
      if t == "书签栏" || t == "Bookmarks Bar" then i
      else
        match c with
        | none => findBookmarkBarId ns
        | some l =>
            let found := findBookmarkBarId l
            if !found.isEmpty then found else findBookmarkBarId ns

/-- One row of the preview table, mirroring the component's `OrganizeResult`. -/
structure OrganizeResult where
  bookmarkId : String
  title : String
  url : String
  originalFolder : String
  suggestedFolder : String
  isNewCategory : Bool
deriving DecidableEq, Repr

/-- One `chrome.bookmarks.create` call: parent id, title, and the url for a
bookmark (absent for a folder). -/
structure CreateCall where
  parentId : String
  title : String
  url : Option String
deriving DecidableEq, Repr

/-- One `chrome.bookmarks.move` call: the node moved and its new parent id. -/
structure MoveCall where
  bookmarkId : String
  parentId : String
deriving DecidableEq, Repr

/--
The folder-creation loop of `handleApplyChanges`: for each result flagged
`isNewCategory` whose suggested folder is not yet in the `newFolders` map,
resolve the bookmark-bar id from the tree, issue one create call for the
suggested folder name, and record the returned id under that name.  The id
returned by `chrome.bookmarks.create` is supplied by the oracle `fresh`,
indexed by the number of create calls issued so far.  Returns the final
`newFolders` association list and the list of create calls issued, in order.
-/
def applyCreateGo (tree : List BookmarkNode) (fresh : Nat → String) :
    List OrganizeResult → List (String × String) → List CreateCall →
      List (String × String) × List CreateCall
  | [], newFolders, calls => (newFolders, calls)
  | r :: rs, newFolders, calls =>
      if r.isNewCategory && !(newFolders.any (fun p => p.1 == r.suggestedFolder)) then
        let bookmarkBarId := findBookmarkBarId tree
        applyCreateGo tree fresh rs
          (newFolders ++ [(r.suggestedFolder, fresh calls.length)])
          (calls ++ [⟨bookmarkBarId, r.suggestedFolder, none⟩])
      else
        applyCreateGo tree fresh rs newFolders calls

/-- The folder-creation phase of `handleApplyChanges`, started with an empty
`newFolders` map and no calls issued. -/
def applyCreateStep (tree : List BookmarkNode) (fresh : Nat → String)
    (results : List OrganizeResult) :
    List (String × String) × List CreateCall :=
  applyCreateGo tree fresh results [] []

/--
The target-folder resolution of the move loop of `handleApplyChanges`:
`result.isNewCategory ? newFolders.get(result.suggestedFolder)
: existingFolders.find(f => f.title === result.suggestedFolder)?.id`.
-/
def resolveTarget (existingFolders : List BookmarkNode)
    (newFolders : List (String × String)) (r : OrganizeResult) : Option String :=
  if r.isNewCategory then
    (newFolders.find? (fun p => p.1 == r.suggestedFolder)).map (fun p => p.2)
  else
    (existingFolders.find? (fun f => f.title == r.suggestedFolder)).map
      (fun f => f.id)

/--
The move loop of `handleApplyChanges`: for each result, resolve the target
folder id; issue a move call when the resolved id is truthy and differs from
the bookmark's own id (`if (targetFolderId && targetFolderId !== result.bookmarkId)`).
Returns the list of move calls issued, in order.
-/
def applyMoveStep (existingFolders : List BookmarkNode)
    (newFolders : List (String × String)) :
    List OrganizeResult → List MoveCall
  | [] => []
  | r :: rs =>
      (match resolveTarget existingFolders newFolders r with
        | some tid =>
            if !tid.isEmpty && tid != r.bookmarkId then
              [MoveCall.mk r.bookmarkId tid]
            else []
        | none => []) ++ applyMoveStep existingFolders newFolders rs

/-- One parsed item of a batch-classification response:
`{id, category, isNewCategory}`. -/
structure OrgItem where
  id : String
  category : String
  isNewCategory : Bool
deriving DecidableEq, Repr

/-- A per-bookmark suggestion stored in the result map of the dispatcher. -/
structure OrgSuggestion where
  category : String
  isNewCategory : Bool
deriving DecidableEq, Repr

/-- `results.get(key)` on a JavaScript `Map` modelled as an association list. -/
def mapGet (m : List (String × OrgSuggestion)) (key : String) :
    Option OrgSuggestion :=
  (m.find? (fun p => p.1 == key)).map (fun p => p.2)

/-- `results.set(key, value)` on a JavaScript `Map`: replace the value when the
key is present, otherwise append the new binding. -/
def mapSet (m : List (String × OrgSuggestion)) (key : String)
    (v : OrgSuggestion) : List (String × OrgSuggestion) :=
  if m.any (fun p => p.1 == key) then
    m.map (fun p => if p.1 == key then (key, v) else p)
  else m ++ [(key, v)]

/--
The batching loop of `getOrganizeSuggestions`
(`for (let i = 0; i < bookmarks.length; i += batchSize) batches.push(bookmarks.slice(i, i + batchSize))`),
generalised over the batch size `b` (the source fixes `b = 20`).  For `b = 0`
the source loop would not terminate; that unreachable case is mapped to `[]`.
-/
def chunkList (b : Nat) : List BookmarkNode → List (List BookmarkNode)
  | [] => []
  | x :: xs =>
      if b = 0 then []
      else (x :: xs).take b :: chunkList b ((x :: xs).drop b)
termination_by l => l.length
decreasing_by
  simp only [List.length_drop, List.length_cons]
  omega

/--
The per-batch body and progress reporting of `getOrganizeSuggestions`.
`responses i` is the outcome of `callAI` plus JSON cleanup/parse for batch `i`:
`none` models a thrown error or an unparseable response (caught and logged,
leaving the result map unchanged), `some items` a successfully parsed JSON
value — the items are folded into the map only when the value is an array,
and a parsed non-array contributes nothing, which `some []` also represents.
After every batch, successful or not, progress is reported as
`((i + 1) * batchSize, total)`.  Returns the final result map, the progress
reports in order, and the batch passed to each classification call in order.
-/
def dispatchGo (responses : Nat → Option (List OrgItem)) (total : Nat) :
    List (List BookmarkNode) → Nat → List (String × OrgSuggestion) →
      List (String × OrgSuggestion) × List (Nat × Nat) ×
        List (List BookmarkNode)
  | [], _, acc => (acc, [], [])
  | batch :: rest, i, acc =>
      let acc1 := match responses i with
        | some items =>
            items.foldl (fun m it => mapSet m it.id ⟨it.category, it.isNewCategory⟩) acc
        | none => acc
      let out := dispatchGo responses total rest (i + 1) acc1
      (out.1, ((i + 1) * 20, total) :: out.2.1, batch :: out.2.2)

/--
`getOrganizeSuggestions` from the AI service: split the bookmarks into batches
of 20 and run the dispatch loop from batch index 0 with an empty result map.
-/
def getOrganizeSuggestions (bookmarks : List BookmarkNode)
    (responses : Nat → Option (List OrgItem)) :
    List (String × OrgSuggestion) × List (Nat × Nat) ×
      List (List BookmarkNode) :=
  dispatchGo responses bookmarks.length (chunkList 20 bookmarks) 0 []

mutual

/--
`createBookmarkFromNode(node, parentId)` from the storage service, on its
success path: a URL node issues one bookmark-create call; a folder node issues
one folder-create call, receives a fresh id from the oracle (indexed by the
number of create calls issued so far), and recreates its children under that
fresh id.  The list accumulates the create calls in issue order.
-/
def createFromNode (fresh : Nat → String) (parentId : String)
    (calls : List CreateCall) : BookmarkNode → List CreateCall
  | .mk _ _ t (some u) _ _ => calls ++ [CreateCall.mk parentId t (some u)]
  | .mk _ _ t none _ c =>
      createFromChildren fresh (fresh calls.length)
        (calls ++ [CreateCall.mk parentId t none]) c

def createFromChildren (fresh : Nat → String) (parentId : String)
    (calls : List CreateCall) : Option (List BookmarkNode) → List CreateCall
  | none => calls
  | some l => createFromList fresh parentId calls l

def createFromList (fresh : Nat → String) (parentId : String)
    (calls : List CreateCall) : List BookmarkNode → List CreateCall
  | [] => calls
  | n :: ns => createFromList fresh parentId (createFromNode fresh parentId calls n) ns

end

mutual

/--
The loop body of `restoreBookmarksFromSnapshot(nodes, parentId?)` from the
storage service, for one node of the list: the root node (id `'0'`) recurses
into each child with `restoreBookmarksFromSnapshot([child], child.id)`, which
processes exactly that one node (`restoreFromSnapshot_singleton` below records
this equality); a node with a truthy `folderType` (a recorded system
container) recreates each of its children with
`createBookmarkFromNode(child, node.id)` — under the snapshot's recorded
container id `node.id`; any other node is recreated under the supplied
`parentId` when one is present (and skipped when none was supplied).
-/
def restoreNode (fresh : Nat → String) (parentId : Option String)
    (calls : List CreateCall) : BookmarkNode → List CreateCall
  | .mk i p t u ft c =>
      if i == "0" then
        match c with
        | none => calls
        | some l => restoreRootChildren fresh calls l
      else if truthyStr ft then
        match c with
        | none => calls
        | some l => createFromList fresh i calls l
      else
        match parentId with
        | some pid => createFromNode fresh pid calls (.mk i p t u ft c)
        | none => calls

/-- The root branch of `restoreBookmarksFromSnapshot`: for each child of the
root, run the restore on that single child with `parentId = child.id`. -/
def restoreRootChildren (fresh : Nat → String) (calls : List CreateCall) :
    List BookmarkNode → List CreateCall
  | [] => calls
  | child :: rest =>
      restoreRootChildren fresh
        (restoreNode fresh (some child.id) calls child) rest

end

/-- `restoreBookmarksFromSnapshot(nodes, parentId?)`: fold the loop body over
the node list. -/
def restoreFromSnapshot (fresh : Nat → String) (parentId : Option String)
    (calls : List CreateCall) : List BookmarkNode → List CreateCall
  | [] => calls
  | n :: ns =>
      restoreFromSnapshot fresh parentId (restoreNode fresh parentId calls n) ns

/-- The recursive call `restoreBookmarksFromSnapshot([child], child.id)` of the
root branch processes exactly the single node `child`, so the root branch of
`restoreNode` is the loop of the source verbatim. -/
theorem restoreFromSnapshot_singleton (fresh : Nat → String)
    (parentId : Option String) (calls : List CreateCall) (n : BookmarkNode) :
    restoreFromSnapshot fresh parentId calls [n] =
      restoreNode fresh parentId calls n := rfl

/-- The `Tag` record of the storage service: id, normalized name, the list of
bookmark ids carrying the tag, and the creation timestamp. -/
structure Tag where
  id : String
  name : String
  bookmarkIds : List String
  createdAt : Nat
deriving DecidableEq, Repr

/-- `getTagByName(name)`: lookup through the unique `name` index of the tag
store, modelled as a list of records. -/
def getTagByName (store : List Tag) (name : String) : Option Tag :=
  store.find? (fun t => t.name == name)

/-- `store.put(tag)` of IndexedDB with `keyPath: 'id'` (used by `saveTag` and
`updateTag`): replace the record with the same id, or add the record. -/
def saveTag (store : List Tag) (tag : Tag) : List Tag :=
  if store.any (fun t => t.id == tag.id) then
    store.map (fun t => if t.id == tag.id then tag else t)
  else store ++ [tag]

/-- `tagName.trim().toLowerCase()` spelled out on the character list: drop
whitespace from both ends, then lowercase every character. -/
def normalizeTagName (s : String) : String :=
  String.mk
    ((((s.data.dropWhile Char.isWhitespace).reverse.dropWhile
        Char.isWhitespace).reverse).map Char.toLower)

/--
The per-name body of `addTagsToBookmark`: normalize (trim, lowercase), skip an
empty result; when a tag with the normalized name exists, append the bookmark
id unless already present and persist; otherwise create a tag whose id-set is
exactly `[bookmarkId]` with a fresh id.
-/
def addOneTag (freshId : String) (now : Nat) (bookmarkId : String)
    (store : List Tag) (tagName : String) : List Tag :=
  let normalizedName := normalizeTagName tagName
  if normalizedName.isEmpty then store
  else
    match getTagByName store normalizedName with
    | some existingTag =>
        if existingTag.bookmarkIds.contains bookmarkId then store
        else saveTag store
          { existingTag with bookmarkIds := existingTag.bookmarkIds ++ [bookmarkId] }
    | none =>
        saveTag store (Tag.mk freshId normalizedName [bookmarkId] now)

/-- `addTagsToBookmark(bookmarkId, tagNames)`: the per-name body folded over
the names, with the oracle `fresh` supplying the generated tag ids. -/
def addTagsToBookmark (fresh : Nat → String) (now : Nat) (bookmarkId : String) :
    List String → List Tag → Nat → List Tag
  | [], store, _ => store
  | name :: rest, store, k =>
      addTagsToBookmark fresh now bookmarkId rest
        (addOneTag (fresh k) now bookmarkId store name) (k + 1)

/--
`removeTagFromBookmark(bookmarkId, tagId)`: fetch the tag by id (a missing id
resolves without change), drop every occurrence of the bookmark id from its
id-set, then delete the whole tag when the set became empty, otherwise persist
the reduced set.
-/
def removeTagFromBookmark (store : List Tag) (bookmarkId tagId : String) :
    List Tag :=
  match store.find? (fun t => t.id == tagId) with
  | none => store
  | some tag =>
      let newIds := tag.bookmarkIds.filter (fun i => i != bookmarkId)
      if newIds.isEmpty then
        store.filter (fun t => t.id != tagId)
      else
        store.map (fun t => if t.id == tagId then
          { tag with bookmarkIds := newIds } else t)

mutual

theorem foldersNode_not_system (n : BookmarkNode) :
    ∀ m ∈ foldersNode n, isSystemFolder m = false := by
  cases n with
  | mk i p t u ft c =>
    intro m hm
    rw [foldersNode] at hm
    rcases List.mem_append.mp hm with h1 | h2
    · by_cases hc : (!(BookmarkNode.mk i p t u ft c).url.isSome
          && !isSystemFolder (BookmarkNode.mk i p t u ft c)) = true
      · rw [if_pos hc] at h1
        rcases List.mem_singleton.mp h1 with rfl
        simp only [Bool.and_eq_true, Bool.not_eq_true'] at hc
        exact hc.2
      · rw [if_neg hc] at h1
        exact absurd h1 (List.not_mem_nil m)
    · exact foldersChildren_not_system c m h2

theorem foldersChildren_not_system (c : Option (List BookmarkNode)) :
    ∀ m ∈ foldersChildren c, isSystemFolder m = false := by
  cases c with
  | none => intro m hm; rw [foldersChildren] at hm; exact absurd hm (List.not_mem_nil m)
  | some l => intro m hm; rw [foldersChildren] at hm; exact foldersList_not_system l m hm

theorem foldersList_not_system (l : List BookmarkNode) :
    ∀ m ∈ foldersList l, isSystemFolder m = false := by
  cases l with
  | nil => intro m hm; rw [foldersList] at hm; exact absurd hm (List.not_mem_nil m)
  | cons n ns =>
    intro m hm
    rw [foldersList] at hm
    rcases List.mem_append.mp hm with h1 | h2
    · exact foldersNode_not_system n m h1
    · exact foldersList_not_system ns m h2

end

/--
Claim C7: node classification checks parent-is-root before any type-marker or
folder check — every node whose `parentId` is the reserved root id `'0'` is
classified as a system container by `isSystemFolder`, whatever its
`folderType` marker or URL, and consequently such a node is never collected
among the user folders by `getAllFolders` on any tree.
-/
theorem C7_parent_root_always_system (n : BookmarkNode)
    (h : n.parentId = some "0") :
    isSystemFolder n = true ∧ ∀ l : List BookmarkNode, n ∉ getAllFolders l := by
  have hsys : isSystemFolder n = true := by
    unfold isSystemFolder
    rw [h]
    simp
  refine ⟨hsys, ?_⟩
  intro l hmem
  have := foldersList_not_system l n hmem
  rw [hsys] at this
  exact Bool.true_eq_false.mp this

/--
Witness for C7: a node with `parentId = '0'` carrying an unknown type marker
and a URL is still classified as a system container and never listed as a
user folder.
-/
theorem C7_witness :
    isSystemFolder (BookmarkNode.mk "z" (some "0") "T" (some "u") (some "weird") none) = true
      ∧ ∀ l : List BookmarkNode,
          BookmarkNode.mk "z" (some "0") "T" (some "u") (some "weird") none ∉ getAllFolders l :=
  C7_parent_root_always_system
    (BookmarkNode.mk "z" (some "0") "T" (some "u") (some "weird") none) rfl

mutual

theorem flattenNode_url (n : BookmarkNode) :
    ∀ m ∈ flattenNode n, m.url.isSome := by
  cases n with
  | mk i p t u ft c =>
    intro m hm
    rw [flattenNode] at hm
    rcases List.mem_append.mp hm with h1 | h2
    · by_cases hu : u.isSome
      · rw [if_pos hu] at h1
        rcases List.mem_singleton.mp h1 with rfl
        exact hu
      · rw [if_neg hu] at h1
        exact absurd h1 (List.not_mem_nil m)
    · exact flattenChildren_url c m h2

theorem flattenChildren_url (c : Option (List BookmarkNode)) :
    ∀ m ∈ flattenChildren c, m.url.isSome := by
  cases c with
  | none => intro m hm; rw [flattenChildren] at hm; exact absurd hm (List.not_mem_nil m)
  | some l => intro m hm; rw [flattenChildren] at hm; exact flattenList_url l m hm

theorem flattenList_url (l : List BookmarkNode) :
    ∀ m ∈ flattenList l, m.url.isSome := by
  cases l with
  | nil => intro m hm; rw [flattenList] at hm; exact absurd hm (List.not_mem_nil m)
  | cons n ns =>
    intro m hm
    rw [flattenList] at hm
    rcases List.mem_append.mp hm with h1 | h2
    · exact flattenNode_url n m h1
    · exact flattenList_url ns m h2

end

mutual

theorem statsNode_flatten (n : BookmarkNode)
    (h : ∀ m ∈ nodesOfNode n, m.url.isSome → isSystemFolder m = false) :
    ∀ (s : BookmarkStats) (d : Nat),
      (statsNode s d n).bookmarkCount = s.bookmarkCount + (flattenNode n).length := by
  cases n with
  | mk i p t u ft c =>
    intro s d
    have hchild : ∀ m ∈ nodesOfChildren c, m.url.isSome → isSystemFolder m = false := by
      intro m hm
      apply h
      rw [nodesOfNode]
      exact List.mem_cons_of_mem _ hm
    rw [statsNode, flattenNode]
    by_cases hsys : isSystemFolder (BookmarkNode.mk i p t u ft c) = true
    · have hu : u.isSome = false := by
        by_contra hne
        have hself : (BookmarkNode.mk i p t u ft c) ∈
            nodesOfNode (BookmarkNode.mk i p t u ft c) := by
          rw [nodesOfNode]; exact List.mem_cons_self _ _
        have := h _ hself (by
          revert hne
          cases u <;> simp [BookmarkNode.url])
        rw [hsys] at this
        exact Bool.true_eq_false.mp this
      rw [if_pos hsys, hu]
      simp only [Bool.false_eq_true, if_false, List.nil_append]
      exact statsChildren_flatten c hchild s 0
    · rw [if_neg hsys]
      cases hu : u with
      | some v =>
          simp only [Option.isSome_some, if_pos]
          rw [statsChildren_flatten c hchild _ (d + 1)]
          simp [List.length_append, Nat.add_comm, Nat.add_assoc, Nat.add_left_comm]
      | none =>
          simp only [Option.isSome_none, Bool.false_eq_true, if_false]
          rw [statsChildren_flatten c hchild _ (d + 1)]
          simp [List.length_append]

theorem statsChildren_flatten (c : Option (List BookmarkNode))
    (h : ∀ m ∈ nodesOfChildren c, m.url.isSome → isSystemFolder m = false) :
    ∀ (s : BookmarkStats) (d : Nat),
      (statsChildren s d c).bookmarkCount = s.bookmarkCount + (flattenChildren c).length := by
  cases c with
  | none => intro s d; rw [statsChildren, flattenChildren]; simp
  | some l =>
      intro s d
      rw [statsChildren, flattenChildren]
      exact statsList_flatten l (by
        intro m hm
        apply h
        rw [nodesOfChildren]
        exact hm) s d

theorem statsList_flatten (l : List BookmarkNode)
    (h : ∀ m ∈ nodesOfList l, m.url.isSome → isSystemFolder m = false) :
    ∀ (s : BookmarkStats) (d : Nat),
      (statsList s d l).bookmarkCount = s.bookmarkCount + (flattenList l).length := by
  cases l with
  | nil => intro s d; rw [statsList, flattenList]; simp
  | cons n ns =>
      intro s d
      have hn : ∀ m ∈ nodesOfNode n, m.url.isSome → isSystemFolder m = false := by
        intro m hm
        apply h
        rw [nodesOfList]
        exact List.mem_append.mpr (Or.inl hm)
      have hns : ∀ m ∈ nodesOfList ns, m.url.isSome → isSystemFolder m = false := by
        intro m hm
        apply h
        rw [nodesOfList]
        exact List.mem_append.mpr (Or.inr hm)
      rw [statsList, flattenList]
      rw [statsList_flatten ns hns _ d, statsNode_flatten n hn s d]
      simp [List.length_append, Nat.add_assoc]

end

/--
Counterexample to claim C8 as stated: the claim quantifies over any tree, but
for a tree holding a URL-bearing node that `isSystemFolder` classifies as a
system container (here: a bookmark sitting directly under the root, so its
`parentId` is `'0'`), `flattenBookmarks` returns the node while
`getBookmarkStats` skips it, so the flatten length exceeds the bookmark count.
-/
theorem C8_counterexample :
    (flattenBookmarks [BookmarkNode.mk "x" (some "0") "t" (some "u") none none]).length
      ≠ (getBookmarkStats
          [BookmarkNode.mk "x" (some "0") "t" (some "u") none none]).bookmarkCount := by
  decide

/--
Claim C8, amended: for every tree in which no URL-bearing node is classified
as a system folder (in particular, no bookmark sits directly under the root or
carries a system `folderType` marker), the number of nodes returned by
`flattenBookmarks` equals the `bookmarkCount` computed by `getBookmarkStats`;
and on every tree whatsoever, every node returned by `flattenBookmarks` has a
URL.
-/
theorem C8_flatten_matches_stats (l : List BookmarkNode)
    (h : ∀ m ∈ nodesOfList l, m.url.isSome → isSystemFolder m = false) :
    (flattenBookmarks l).length = (getBookmarkStats l).bookmarkCount
      ∧ ∀ m ∈ flattenBookmarks l, m.url.isSome := by
  constructor
  · rw [flattenBookmarks, getBookmarkStats, statsList_flatten l h ⟨0, 0, 0⟩ 0]
    simp
  · intro m hm
    exact flattenList_url l m hm

/--
Witness for C8: a well-formed tree (one system container holding one
bookmark) where the flatten length equals the counted bookmarks and every
flattened node has a URL.
-/
theorem C8_witness :
    (flattenBookmarks
        [BookmarkNode.mk "1" (some "0") "Bar" none (some "bookmarks-bar")
          (some [BookmarkNode.mk "b" (some "1") "G" (some "u") none none])]).length
      = (getBookmarkStats
          [BookmarkNode.mk "1" (some "0") "Bar" none (some "bookmarks-bar")
            (some [BookmarkNode.mk "b" (some "1") "G" (some "u") none none])]).bookmarkCount
      ∧ ∀ m ∈ flattenBookmarks
          [BookmarkNode.mk "1" (some "0") "Bar" none (some "bookmarks-bar")
            (some [BookmarkNode.mk "b" (some "1") "G" (some "u") none none])],
          m.url.isSome :=
  C8_flatten_matches_stats _ (by decide)

/-- A bookmark that already sits inside the folder `'7'` suggested for it. -/
def c1Bookmark : BookmarkNode := .mk "b1" (some "7") "B" (some "u") none none

/-- The user folder `Dev` (id `'7'`) containing `c1Bookmark`. -/
def c1Folder : BookmarkNode := .mk "7" (some "1") "Dev" none none (some [c1Bookmark])

/-- The bookmarks-bar system container of the C1 counterexample tree. -/
def c1Bar : BookmarkNode :=
  .mk "1" (some "0") "书签栏" none (some "bookmarks-bar") (some [c1Folder])

/-- The root of the C1 counterexample tree. -/
def c1Root : BookmarkNode := .mk "0" none "" none none (some [c1Bar])

/-- A confirmed change whose suggested folder `Dev` is the folder the bookmark
is already in. -/
def c1Result : OrganizeResult := ⟨"b1", "B", "u", "Dev", "Dev", false⟩

/--
Counterexample to claim C1 as stated: the bookmark `b1` is already in its
target folder (`c1Bookmark.parentId` is the resolved target id `'7'`), yet the
apply step does not skip the move — a move call to `'7'` is issued, because
the source only guards `targetFolderId !== result.bookmarkId`, comparing the
target against the bookmark's own id rather than against its current parent.
-/
theorem C1_counterexample :
    resolveTarget (getAllFolders [c1Root]) [] c1Result = some "7"
      ∧ c1Bookmark.parentId = some "7"
      ∧ applyMoveStep (getAllFolders [c1Root]) [] [c1Result]
          = [MoveCall.mk "b1" "7"] := by
  decide

/--
Claim C1, amended: for every bookmark in the confirmed change list, a move
call is issued exactly when the target folder id resolves and the resolved id
is non-empty and different from the bookmark's own id; whether the bookmark is
already in its target folder is never consulted, so a bookmark already in its
target folder still receives a move call.
-/
theorem C1_move_guard (efs : List BookmarkNode) (nf : List (String × String))
    (results : List OrganizeResult) :
    applyMoveStep efs nf results = results.filterMap (fun r =>
        match resolveTarget efs nf r with
        | some tid =>
            if !tid.isEmpty && tid != r.bookmarkId then
              some (MoveCall.mk r.bookmarkId tid)
            else none
        | none => none)
      ∧ ∀ r ∈ results, ∀ tid, resolveTarget efs nf r = some tid →
          (!tid.isEmpty && tid != r.bookmarkId) = true →
          MoveCall.mk r.bookmarkId tid ∈ applyMoveStep efs nf results := by
  constructor
  · induction results with
    | nil => rw [applyMoveStep, List.filterMap_nil]
    | cons r rs ih =>
        rw [applyMoveStep, List.filterMap_cons]
        cases hres : resolveTarget efs nf r with
        | none => simpa using ih
        | some tid =>
            by_cases hc : (!tid.isEmpty && tid != r.bookmarkId) = true
            · simp only [hc, if_true, ih]
              rfl
            · simp only [hc, if_false, ih]
              simp at hc
              simp [hc]
  · intro r hr tid hres hc
    induction results with
    | nil => exact absurd hr (List.not_mem_nil r)
    | cons q rs ih =>
        rw [applyMoveStep]
        rcases List.mem_cons.mp hr with rfl | hmem
        · simp [hres, hc]
        · exact List.mem_append.mpr (Or.inr (ih hmem))

/--
Witness for C1 (amended): the move call for `c1Result` is issued since its
target resolves to the non-empty id `'7'` which differs from the bookmark id.
-/
theorem C1_witness :
    MoveCall.mk "b1" "7" ∈ applyMoveStep (getAllFolders [c1Root]) [] [c1Result] :=
  (C1_move_guard (getAllFolders [c1Root]) [] [c1Result]).2 c1Result
    (List.mem_singleton.mpr rfl) "7" (by decide) (by decide)

/-- A snapshot-recorded bookmark under the recorded container id `'99'`. -/
def c2Bookmark : BookmarkNode := .mk "5" (some "99") "GH" (some "http://g") none none

/-- A snapshot-recorded bookmarks-bar system container with recorded id `'99'`. -/
def c2Container : BookmarkNode :=
  .mk "99" (some "0") "Bar" none (some "bookmarks-bar") (some [c2Bookmark])

/-- The root of the snapshot tree of the C2 counterexample. -/
def c2SnapshotRoot : BookmarkNode := .mk "0" none "" none none (some [c2Container])

/--
Counterexample to claim C2 as stated: restoring a snapshot whose
bookmarks-bar container was recorded with id `'99'` recreates its child under
parent id `'99'` — the snapshot's recorded container id — and not under any
live container id resolved by role at restore time: the restore procedure does
not even receive the live tree, and `'99'` differs from the live bookmarks-bar
id `'1'` of a standard Chrome profile.
-/
theorem C2_counterexample :
    restoreFromSnapshot (fun n => toString n) none [] [c2SnapshotRoot]
        = [CreateCall.mk "99" "GH" (some "http://g")]
      ∧ ("99" : String) ≠ "1" := by
  decide

/--
Claim C2, amended: during restore, for every system container recorded in the
snapshot (any non-root node with a truthy `folderType`), the children are
recreated under the snapshot's recorded container id (`node.id`), whatever
parent id the surrounding traversal supplies; no role-based resolution against
the live tree occurs — the code relies on system-container ids being stable
across the clear step, which never deletes the containers themselves.
-/
theorem C2_restore_uses_recorded_id (fresh : Nat → String)
    (parentId : Option String) (calls : List CreateCall) (i : String)
    (p : Option String) (t : String) (u ft : Option String)
    (l : List BookmarkNode) (hi : i ≠ "0") (hft : truthyStr ft = true) :
    restoreNode fresh parentId calls (.mk i p t u ft (some l))
      = createFromList fresh i calls l := by
  have h1 : (i == "0") = false := by
    simpa using hi
  rw [restoreNode.eq_def]
  simp [h1, hft]

/--
Witness for C2 (amended): the recorded container `'99'` has its child
recreated under `'99'` even when the traversal supplies parent id `'1'`.
-/
theorem C2_witness :
    restoreNode (fun n => toString n) (some "1") []
        (.mk "99" (some "0") "Bar" none (some "bookmarks-bar") (some [c2Bookmark]))
      = createFromList (fun n => toString n) "99" [] [c2Bookmark] :=
  C2_restore_uses_recorded_id (fun n => toString n) (some "1") [] "99"
    (some "0") "Bar" none (some "bookmarks-bar") [c2Bookmark]
    (by decide) (by decide)

theorem applyCreateGo_filter_title (tree : List BookmarkNode)
    (fresh : Nat → String) (name : String) :
    ∀ (rs : List OrganizeResult) (nf : List (String × String))
      (calls : List CreateCall),
      (((applyCreateGo tree fresh rs nf calls).2).filter
          (fun c => c.title == name)).length
        = (calls.filter (fun c => c.title == name)).length
            + (if nf.any (fun q => q.1 == name) then 0
               else if rs.any (fun r => r.isNewCategory && r.suggestedFolder == name)
                    then 1 else 0) := by
  intro rs
  induction rs with
  | nil =>
      intro nf calls
      rw [applyCreateGo]
      simp
  | cons r rs ih =>
      intro nf calls
      rw [applyCreateGo]
      by_cases hbr : (r.isNewCategory
          && !(nf.any (fun p => p.1 == r.suggestedFolder))) = true
      · rw [if_pos hbr]
        rw [ih]
        simp only [Bool.and_eq_true, Bool.not_eq_true'] at hbr
        obtain ⟨hnew, hnf⟩ := hbr
        by_cases hsf : r.suggestedFolder = name
        · subst hsf
          have hfil : ((calls
                ++ [CreateCall.mk (findBookmarkBarId tree) r.suggestedFolder none]).filter
                  (fun c => c.title == r.suggestedFolder)).length
              = (calls.filter (fun c => c.title == r.suggestedFolder)).length + 1 := by
            simp [List.filter_append, CreateCall.title]
          have hany : ((nf ++ [(r.suggestedFolder, fresh calls.length)]).any
              (fun q => q.1 == r.suggestedFolder)) = true := by
            simp [List.any_append]
          have hcons : ((r :: rs).any
              (fun x => x.isNewCategory && x.suggestedFolder == r.suggestedFolder)) = true := by
            simp [List.any_cons, hnew]
          rw [hfil, hany, hcons, if_pos rfl, if_neg (by rw [hnf]; exact Bool.false_ne_true)]
          rw [if_pos rfl]
        · have hsfb : (r.suggestedFolder == name) = false := by
            simpa using hsf
          have hfil : ((calls
                ++ [CreateCall.mk (findBookmarkBarId tree) r.suggestedFolder none]).filter
                  (fun c => c.title == name))
              = calls.filter (fun c => c.title == name) := by
            simp [List.filter_append, CreateCall.title, hsfb]
          have hany : ((nf ++ [(r.suggestedFolder, fresh calls.length)]).any
              (fun q => q.1 == name)) = (nf.any fun q => q.1 == name) := by
            simp [List.any_append, hsfb]
          have hcons : ((r :: rs).any
              (fun x => x.isNewCategory && x.suggestedFolder == name))
              = (rs.any fun x => x.isNewCategory && x.suggestedFolder == name) := by
            simp [List.any_cons, hsfb]
          rw [hfil, hany, hcons]
      · rw [if_neg hbr]
        rw [ih]
        simp only [Bool.and_eq_true, Bool.not_eq_true', not_and,
          Bool.not_eq_false] at hbr
        by_cases hnew : r.isNewCategory = true
        · have hnf := hbr hnew
          by_cases hsf : r.suggestedFolder = name
          · subst hsf
            have hcons : ((r :: rs).any
                (fun x => x.isNewCategory && x.suggestedFolder == r.suggestedFolder)) = true := by
              simp [List.any_cons, hnew]
            rw [hcons, if_pos hnf, if_pos hnf]
          · have hsfb : (r.suggestedFolder == name) = false := by
              simpa using hsf
            have hcons : ((r :: rs).any
                (fun x => x.isNewCategory && x.suggestedFolder == name))
                = (rs.any fun x => x.isNewCategory && x.suggestedFolder == name) := by
              simp [List.any_cons, hsfb]
            rw [hcons]
        · have hnew2 : r.isNewCategory = false := by
            simpa using hnew
          have hcons : ((r :: rs).any
              (fun x => x.isNewCategory && x.suggestedFolder == name))
              = (rs.any fun x => x.isNewCategory && x.suggestedFolder == name) := by
            simp [List.any_cons, hnew2]
          rw [hcons]

/--
Claim C3: the apply step issues at most one folder-creation call per distinct
suggested folder name flagged `isNewCategory` — the number of create calls
carrying a given folder name is exactly one when some confirmed change flags
that name as a new category, and zero otherwise; in particular, for five
bookmarks all suggesting the new category `Research`, exactly one create call
is issued in total.
-/
theorem C3_one_create_per_new_category :
    (∀ (tree : List BookmarkNode) (fresh : Nat → String)
        (results : List OrganizeResult) (name : String),
      (((applyCreateStep tree fresh results).2).filter
          (fun c => c.title == name)).length
        = if results.any (fun r => r.isNewCategory && r.suggestedFolder == name)
          then 1 else 0)
    ∧ ((applyCreateStep [] (fun n => toString n)
        [OrganizeResult.mk "b1" "t1" "u1" "Old" "Research" true,
         OrganizeResult.mk "b2" "t2" "u2" "Old" "Research" true,
         OrganizeResult.mk "b3" "t3" "u3" "Old" "Research" true,
         OrganizeResult.mk "b4" "t4" "u4" "Old" "Research" true,
         OrganizeResult.mk "b5" "t5" "u5" "Old" "Research" true]).2).length
      = 1 := by
  constructor
  · intro tree fresh results name
    rw [applyCreateStep, applyCreateGo_filter_title]
    simp
  · simp [applyCreateStep, applyCreateGo, findBookmarkBarId]

theorem applyCreateGo_parents (tree : List BookmarkNode) (fresh : Nat → String) :
    ∀ (rs : List OrganizeResult) (nf : List (String × String))
      (calls : List CreateCall),
      (∀ c ∈ calls, c.parentId = findBookmarkBarId tree ∧ c.url = none) →
      ∀ c ∈ (applyCreateGo tree fresh rs nf calls).2,
        c.parentId = findBookmarkBarId tree ∧ c.url = none := by
  intro rs
  induction rs with
  | nil =>
      intro nf calls hcalls
      rw [applyCreateGo]
      exact hcalls
  | cons r rs ih =>
      intro nf calls hcalls
      rw [applyCreateGo]
      by_cases hbr : (r.isNewCategory
          && !(nf.any (fun p => p.1 == r.suggestedFolder))) = true
      · rw [if_pos hbr]
        apply ih
        intro c hc
        rcases List.mem_append.mp hc with h1 | h2
        · exact hcalls c h1
        · rcases List.mem_singleton.mp h2 with rfl
          exact ⟨rfl, rfl⟩
      · rw [if_neg hbr]
        exact ih nf calls hcalls

/-- A user folder that happens to carry the searched title `Bookmarks Bar`. -/
def c10UserFolder : BookmarkNode :=
  .mk "10" (some "1") "Bookmarks Bar" none none (some [])

/-- A bookmarks-bar system container titled differently (as in a browser whose
UI language names it otherwise). -/
def c10Bar : BookmarkNode :=
  .mk "1" (some "0") "收藏栏" none (some "bookmarks-bar") (some [c10UserFolder])

/-- The root of the C10 counterexample tree. -/
def c10Root : BookmarkNode := .mk "0" none "" none none (some [c10Bar])

/--
Counterexample to claim C10 as stated: in a tree whose bookmarks-bar container
carries a different title while a user folder is titled `Bookmarks Bar`, the
title search resolves to the user folder's id `'10'`, and the new-category
folder is created inside that user folder — so new folders are not never
created inside another user folder.
-/
theorem C10_counterexample :
    (applyCreateStep [c10Root] (fun n => toString n)
        [OrganizeResult.mk "b" "t" "u" "Old" "Research" true]).2
      = [CreateCall.mk "10" "Research" none]
    ∧ getAllFolders [c10Root] = [c10UserFolder]
    ∧ c10UserFolder.id = "10" := by
  refine ⟨?_, rfl, rfl⟩
  simp +decide [applyCreateStep, applyCreateGo, findBookmarkBarId,
    c10Root, c10Bar, c10UserFolder]

/--
Claim C10, amended: every new-category folder created by the apply step is
created as a direct child of the single id `findBookmarkBarId(tree)` (and the
create call carries no URL, i.e. creates a folder).  That id is produced by a
depth-first search for a node titled `书签栏` or `Bookmarks Bar` which can
fall back to the literal `'1'` as soon as the first node bearing a children
field lacks a match in its subtree; the resolved node is not guaranteed to be
the bookmarks-bar system container and can be a user folder whose title
matches, in which case the new folders are created inside that user folder.
-/
theorem C10_create_parent_is_found_id (tree : List BookmarkNode)
    (fresh : Nat → String) (results : List OrganizeResult) :
    ∀ c ∈ (applyCreateStep tree fresh results).2,
      c.parentId = findBookmarkBarId tree ∧ c.url = none := by
  apply applyCreateGo_parents
  intro c hc
  exact absurd hc (List.not_mem_nil c)

/--
Witness for C10 (amended): on the empty tree the search falls back to `'1'`
and the single create call for a new category targets exactly that id.
-/
theorem C10_witness :
    (CreateCall.mk "1" "Research" none).parentId = findBookmarkBarId []
      ∧ (CreateCall.mk "1" "Research" none).url = none := by
  have hmem : CreateCall.mk "1" "Research" none ∈
      (applyCreateStep [] (fun _ => "n1")
        [OrganizeResult.mk "b" "t" "u" "Old" "Research" true]).2 := by
    simp [applyCreateStep, applyCreateGo, findBookmarkBarId]
  exact C10_create_parent_is_found_id [] (fun _ => "n1")
    [OrganizeResult.mk "b" "t" "u" "Old" "Research" true] _ hmem

theorem dispatchGo_progress (responses : Nat → Option (List OrgItem))
    (total : Nat) :
    ∀ (batches : List (List BookmarkNode)) (i : Nat)
      (acc : List (String × OrgSuggestion)),
      (dispatchGo responses total batches i acc).2.1
        = (List.range batches.length).map (fun k => ((i + k + 1) * 20, total)) := by
  intro batches
  induction batches with
  | nil => intro i acc; rw [dispatchGo]; simp
  | cons batch rest ih =>
      intro i acc
      rw [dispatchGo]
      simp only [List.length_cons, List.range_succ_eq_map, List.map_cons,
        List.map_map]
      refine congrArg₂ List.cons ?_ ?_
      · show ((i + 1) * 20, total) = ((i + 0 + 1) * 20, total)
        norm_num
      · rw [ih]
        apply List.map_congr_left
        intro k _
        show (((i + 1) + k + 1) * 20, total)
            = ((fun k => ((i + k + 1) * 20, total)) ∘ Nat.succ) k
        simp only [Function.comp]
        have harith : (i + 1) + k + 1 = i + (k + 1) + 1 := by omega
        rw [harith]

/--
Counterexample to claim C4 as stated: for a single bookmark (N = 1) the one
and only progress report after the final batch passes `(20, 1)` — the
cumulative count reported is `(batchIndex + 1) * batchSize = 20`, not the
number of bookmarks attempted, so the final reported cumulative count does not
equal N.
-/
theorem C4_counterexample :
    (getOrganizeSuggestions [BookmarkNode.mk "x" none "t" (some "u") none none]
        (fun _ => some [])).2.1 = [(20, 1)]
      ∧ (20 : Nat) ≠ 1 := by
  refine ⟨?_, by decide⟩
  simp [getOrganizeSuggestions, dispatchGo, chunkList]

/--
Claim C4, amended: the dispatcher invokes the progress callback exactly once
after each batch completes (success or failure), passing
`((batchIndex + 1) * 20, N)`; the reported count is the batch index boundary,
not the number of bookmarks attempted, so on a final partial batch it
overshoots N (it equals `20 * ceil(N / 20)`), and equals N only when the batch
size 20 divides N.
-/
theorem C4_progress_reports (bookmarks : List BookmarkNode)
    (responses : Nat → Option (List OrgItem)) :
    (getOrganizeSuggestions bookmarks responses).2.1
      = (List.range (chunkList 20 bookmarks).length).map
          (fun k => ((k + 1) * 20, bookmarks.length)) := by
  rw [getOrganizeSuggestions, dispatchGo_progress]
  apply List.map_congr_left
  intro k _
  have h0 : 0 + k + 1 = k + 1 := by omega
  rw [h0]

theorem dispatchGo_calls (responses : Nat → Option (List OrgItem))
    (total : Nat) :
    ∀ (batches : List (List BookmarkNode)) (i : Nat)
      (acc : List (String × OrgSuggestion)),
      (dispatchGo responses total batches i acc).2.2 = batches := by
  intro batches
  induction batches with
  | nil => intro i acc; rw [dispatchGo]
  | cons batch rest ih =>
      intro i acc
      rw [dispatchGo]
      exact congrArg (List.cons batch) (ih _ _)

theorem chunkList_flatten (b : Nat) (hb : b ≠ 0) :
    ∀ (l : List BookmarkNode), (chunkList b l).flatten = l
  | [] => by rw [chunkList]; rfl
  | x :: xs => by
      rw [chunkList, if_neg hb, List.flatten_cons,
        chunkList_flatten b hb ((x :: xs).drop b), List.take_append_drop]
termination_by l => l.length
decreasing_by
  simp only [List.length_drop, List.length_cons]
  omega

theorem chunkList_length (b : Nat) (hb : b ≠ 0) :
    ∀ (l : List BookmarkNode), (chunkList b l).length = (l.length + b - 1) / b
  | [] => by
      rw [chunkList]
      simp only [List.length_nil, Nat.zero_add]
      rw [Nat.div_eq_of_lt (by omega)]
  | x :: xs => by
      rw [chunkList, if_neg hb, List.length_cons,
        chunkList_length b hb ((x :: xs).drop b)]
      simp only [List.length_drop, List.length_cons]
      have hkey : xs.length + 1 + b - 1 = xs.length + b := by omega
      rw [hkey, Nat.add_div_right _ (Nat.pos_of_ne_zero hb)]
      by_cases hle : b ≤ xs.length + 1
      · have h1 : xs.length + 1 - b + b - 1 = xs.length := by omega
        rw [h1]
      · have h1 : xs.length + 1 - b = 0 := by omega
        rw [h1]
        have h2 : (0 + b - 1) / b = 0 := Nat.div_eq_of_lt (by omega)
        rw [h2]
        have h3 : xs.length / b = 0 := Nat.div_eq_of_lt (by omega)
        rw [h3]
termination_by l => l.length
decreasing_by
  simp only [List.length_drop, List.length_cons]
  omega

theorem chunkList_sizes (b : Nat) (hb : b ≠ 0) :
    ∀ (l : List BookmarkNode), ∀ c ∈ chunkList b l, c ≠ [] ∧ c.length ≤ b
  | [] => by rw [chunkList]; intro c hc; exact absurd hc (List.not_mem_nil c)
  | x :: xs => by
      rw [chunkList, if_neg hb]
      intro c hc
      rcases List.mem_cons.mp hc with rfl | hmem
      · constructor
        · have hlen : ((x :: xs).take b).length = min b (xs.length + 1) := by
            simp [List.length_take]
          intro hnil
          rw [hnil] at hlen
          simp at hlen
          omega
        · simp [List.length_take]
      · exact chunkList_sizes b hb ((x :: xs).drop b) c hmem
termination_by l => l.length
decreasing_by
  simp only [List.length_drop, List.length_cons]
  omega

theorem chunkList_full_size (b : Nat) (hb : b ≠ 0) :
    ∀ (l : List BookmarkNode) (i : Nat), i + 1 < (chunkList b l).length →
      ((chunkList b l).getD i []).length = b
  | [], i => by rw [chunkList]; intro h; simp at h
  | x :: xs, i => by
      rw [chunkList, if_neg hb]
      intro h
      cases i with
      | zero =>
          have hne : chunkList b ((x :: xs).drop b) ≠ [] := by
            intro heq
            rw [heq] at h
            simp at h
          have hdrop : (x :: xs).drop b ≠ [] := by
            intro h0
            rw [h0, chunkList] at hne
            exact hne rfl
          have hle2 : ¬((x :: xs).length ≤ b) :=
            fun hge => hdrop (List.drop_eq_nil_of_le hge)
          simp only [List.getD_cons_zero, List.length_take]
          simp only [List.length_cons] at hle2 ⊢
          omega
      | succ j =>
          simp only [List.getD_cons_succ]
          refine chunkList_full_size b hb ((x :: xs).drop b) j ?_
          rw [List.length_cons] at h
          omega
termination_by l _ => l.length
decreasing_by
  simp only [List.length_drop, List.length_cons]
  omega

/--
Claim C6: for every bookmark list of length N and positive batch size B, the
batching loop partitions the list into ceil(N/B) consecutive order-preserving
groups — their concatenation is the original list, every group is non-empty of
size at most B, and every group except possibly the last has size exactly B —
and the dispatcher issues exactly one classification call per group, in order,
with its batch size fixed at 20.
-/
theorem C6_partition_coverage (b : Nat) (hb : 0 < b) (l : List BookmarkNode) :
    (chunkList b l).length = (l.length + b - 1) / b
      ∧ (chunkList b l).flatten = l
      ∧ (∀ c ∈ chunkList b l, c ≠ [] ∧ c.length ≤ b)
      ∧ (∀ i, i + 1 < (chunkList b l).length →
          ((chunkList b l).getD i []).length = b)
      ∧ ∀ (bookmarks : List BookmarkNode)
          (responses : Nat → Option (List OrgItem)),
          (getOrganizeSuggestions bookmarks responses).2.2
            = chunkList 20 bookmarks := by
  have hb0 : b ≠ 0 := Nat.pos_iff_ne_zero.mp hb
  refine ⟨chunkList_length b hb0 l, chunkList_flatten b hb0 l,
    chunkList_sizes b hb0 l, chunkList_full_size b hb0 l, ?_⟩
  intro bookmarks responses
  rw [getOrganizeSuggestions, dispatchGo_calls]

/--
Witness for C6: batch size 2 over a three-element list yields two groups of
sizes 2 and 1 concatenating to the input, and the dispatcher's call list on
that input is its 20-partition.
-/
theorem C6_witness :
    (0 : Nat) < 2
      ∧ ((chunkList 2 [BookmarkNode.mk "a" none "A" (some "u") none none,
            BookmarkNode.mk "b" none "B" (some "v") none none,
            BookmarkNode.mk "c" none "C" (some "w") none none]).length
          = (3 + 2 - 1) / 2
        ∧ (chunkList 2 [BookmarkNode.mk "a" none "A" (some "u") none none,
            BookmarkNode.mk "b" none "B" (some "v") none none,
            BookmarkNode.mk "c" none "C" (some "w") none none]).flatten
          = [BookmarkNode.mk "a" none "A" (some "u") none none,
             BookmarkNode.mk "b" none "B" (some "v") none none,
             BookmarkNode.mk "c" none "C" (some "w") none none]
        ∧ (∀ c ∈ chunkList 2 [BookmarkNode.mk "a" none "A" (some "u") none none,
            BookmarkNode.mk "b" none "B" (some "v") none none,
            BookmarkNode.mk "c" none "C" (some "w") none none],
            c ≠ [] ∧ c.length ≤ 2)
        ∧ (∀ i, i + 1 < (chunkList 2 [BookmarkNode.mk "a" none "A" (some "u") none none,
            BookmarkNode.mk "b" none "B" (some "v") none none,
            BookmarkNode.mk "c" none "C" (some "w") none none]).length →
            ((chunkList 2 [BookmarkNode.mk "a" none "A" (some "u") none none,
              BookmarkNode.mk "b" none "B" (some "v") none none,
              BookmarkNode.mk "c" none "C" (some "w") none none]).getD i []).length = 2)
        ∧ ∀ (bookmarks : List BookmarkNode)
            (responses : Nat → Option (List OrgItem)),
            (getOrganizeSuggestions bookmarks responses).2.2
              = chunkList 20 bookmarks) :=
  ⟨by decide,
    C6_partition_coverage 2 (by decide)
      [BookmarkNode.mk "a" none "A" (some "u") none none,
       BookmarkNode.mk "b" none "B" (some "v") none none,
       BookmarkNode.mk "c" none "C" (some "w") none none]⟩

theorem mapGet_mapSet_none (m : List (String × OrgSuggestion)) (k x : String)
    (v : OrgSuggestion) :
    mapGet (mapSet m k v) x = none ↔ (mapGet m x = none ∧ x ≠ k) := by
  simp only [mapGet, Option.map_eq_none', List.find?_eq_none, mapSet]
  by_cases hany : m.any (fun p => p.1 == k) = true
  · rw [if_pos hany]
    obtain ⟨q0, hq0m, hq0k⟩ := List.any_eq_true.mp hany
    have hq0 : q0.1 = k := by simpa using hq0k
    constructor
    · intro h
      have hkx : ¬(k = x) := by
        have := h (k, v) (List.mem_map.mpr ⟨q0, hq0m, by simp [hq0]⟩)
        simpa using this
      refine ⟨?_, fun hx => hkx hx.symm⟩
      intro p hp
      by_cases hpk : p.1 = k
      · simp [hpk]
        exact hkx
      · have := h p (List.mem_map.mpr ⟨p, hp, by simp [hpk]⟩)
        simpa using this
    · rintro ⟨hall, hxk⟩
      intro p hp
      obtain ⟨q, hq, rfl⟩ := List.mem_map.mp hp
      by_cases hqk : q.1 = k
      · simp [hqk]
        exact fun hx => hxk hx.symm
      · simp [hqk]
        exact fun hx => (by simpa [hx] using hall q hq)
  · rw [if_neg hany]
    constructor
    · intro h
      refine ⟨fun p hp => h p (List.mem_append.mpr (Or.inl hp)), ?_⟩
      have := h (k, v) (List.mem_append.mpr (Or.inr (List.mem_singleton.mpr rfl)))
      simpa using fun hx => this (by simp [hx])
    · rintro ⟨hall, hxk⟩
      intro p hp
      rcases List.mem_append.mp hp with h1 | h2
      · exact hall p h1
      · rcases List.mem_singleton.mp h2 with rfl
        simpa using fun hx => hxk hx.symm

theorem mapGet_itemsFold_none (items : List OrgItem) :
    ∀ (acc : List (String × OrgSuggestion)) (x : String),
      mapGet (items.foldl
          (fun m it => mapSet m it.id ⟨it.category, it.isNewCategory⟩) acc) x = none
        ↔ (mapGet acc x = none ∧ ∀ it ∈ items, it.id ≠ x) := by
  induction items with
  | nil => intro acc x; simp
  | cons it items ih =>
      intro acc x
      rw [List.foldl_cons, ih, mapGet_mapSet_none]
      constructor
      · rintro ⟨⟨ha, hx⟩, hrest⟩
        refine ⟨ha, ?_⟩
        intro q hq
        rcases List.mem_cons.mp hq with rfl | hmem
        · exact fun he => hx he.symm
        · exact hrest q hmem
      · rintro ⟨ha, hall⟩
        refine ⟨⟨ha, ?_⟩, ?_⟩
        · have := hall it (List.mem_cons_self it items)
          exact fun he => this he.symm
        · intro q hq
          exact hall q (List.mem_cons_of_mem it hq)

theorem dispatchStep_eq (responses : Nat → Option (List OrgItem)) (i : Nat)
    (acc : List (String × OrgSuggestion)) :
    (match responses i with
      | some items => items.foldl
          (fun m it => mapSet m it.id ⟨it.category, it.isNewCategory⟩) acc
      | none => acc)
      = ((responses i).getD []).foldl
          (fun m it => mapSet m it.id ⟨it.category, it.isNewCategory⟩) acc := by
  cases responses i <;> rfl

theorem dispatchGo_results_none (responses : Nat → Option (List OrgItem))
    (total : Nat) :
    ∀ (batches : List (List BookmarkNode)) (i : Nat)
      (acc : List (String × OrgSuggestion)) (x : String),
      mapGet (dispatchGo responses total batches i acc).1 x = none
        ↔ (mapGet acc x = none
            ∧ ∀ k < batches.length, ∀ it ∈ (responses (i + k)).getD [],
                it.id ≠ x) := by
  intro batches
  induction batches with
  | nil =>
      intro i acc x
      rw [dispatchGo]
      simp
  | cons batch rest ih =>
      intro i acc x
      rw [dispatchGo]
      show mapGet (dispatchGo responses total rest (i + 1) _).1 x = none ↔ _
      rw [ih, dispatchStep_eq, mapGet_itemsFold_none]
      constructor
      · rintro ⟨⟨ha, h0⟩, hrest⟩
        refine ⟨ha, ?_⟩
        intro k hk q hq
        cases k with
        | zero => exact h0 q (by simpa using hq)
        | succ k2 =>
            have hk2 : k2 < rest.length := by
              simp only [List.length_cons] at hk
              omega
            have harith : i + 1 + k2 = i + (k2 + 1) := by omega
            exact hrest k2 hk2 q (by rw [harith]; exact hq)
      · rintro ⟨ha, hall⟩
        refine ⟨⟨ha, ?_⟩, ?_⟩
        · intro q hq
          refine hall 0 (by simp) q ?_
          simpa using hq
        · intro k hk q hq
          have harith : i + (k + 1) = i + 1 + k := by omega
          refine hall (k + 1) (by simp only [List.length_cons]; omega) q ?_
          rw [harith]
          exact hq

theorem dispatchGo_results_congr (responses responses' : Nat → Option (List OrgItem))
    (total : Nat) :
    ∀ (batches : List (List BookmarkNode)) (i : Nat)
      (acc : List (String × OrgSuggestion)),
      (∀ k < batches.length, (responses (i + k)).getD []
          = (responses' (i + k)).getD []) →
      (dispatchGo responses total batches i acc).1
        = (dispatchGo responses' total batches i acc).1 := by
  intro batches
  induction batches with
  | nil => intro i acc h; rw [dispatchGo, dispatchGo]
  | cons batch rest ih =>
      intro i acc h
      rw [dispatchGo, dispatchGo]
      show (dispatchGo responses total rest (i + 1) _).1
        = (dispatchGo responses' total rest (i + 1) _).1
      rw [dispatchStep_eq, dispatchStep_eq]
      have h0 : (responses (i + 0)).getD [] = (responses' (i + 0)).getD [] :=
        h 0 (by simp)
      simp only [Nat.add_zero] at h0
      rw [h0]
      apply ih
      intro k hk
      have harith : i + 1 + k = i + (k + 1) := by omega
      rw [harith]
      exact h (k + 1) (by simp only [List.length_cons]; omega)

/--
Claim C5: when the classification call for batch `j` fails (throws or yields
unparseable / non-array data, both modelled as `responses j = none`), the run
is not aborted — the result mapping equals the mapping of the run where batch
`j` simply contributed nothing, so every other batch's entries are intact; the
dispatcher still completes (and reports progress for) every batch; and every
bookmark of batch `j` whose id is not mentioned by any other batch's response
is absent from the returned mapping.
-/
theorem C5_partial_failure_tolerance (bookmarks : List BookmarkNode)
    (responses : Nat → Option (List OrgItem)) (j : Nat)
    (hj : responses j = none) :
    (getOrganizeSuggestions bookmarks responses).1
        = (getOrganizeSuggestions bookmarks
            (fun i => if i = j then some [] else responses i)).1
      ∧ (getOrganizeSuggestions bookmarks responses).2.1.length
          = (chunkList 20 bookmarks).length
      ∧ ∀ bkm ∈ (chunkList 20 bookmarks).getD j [],
          (∀ k < (chunkList 20 bookmarks).length, k ≠ j →
            ∀ it ∈ (responses k).getD [], it.id ≠ bkm.id) →
          mapGet (getOrganizeSuggestions bookmarks responses).1 bkm.id = none := by
  refine ⟨?_, ?_, ?_⟩
  · rw [getOrganizeSuggestions, getOrganizeSuggestions]
    apply dispatchGo_results_congr
    intro k _
    by_cases hkj : 0 + k = j
    · rw [hkj]
      rw [hj]
      simp [hkj]
    · rw [Nat.zero_add] at hkj
      simp [hkj]
  · rw [getOrganizeSuggestions, dispatchGo_progress]
    simp
  · intro bkm _ hothers
    rw [getOrganizeSuggestions, dispatchGo_results_none]
    refine ⟨rfl, ?_⟩
    intro k hk it hit
    by_cases hkj : k = j
    · subst hkj
      rw [Nat.zero_add, hj] at hit
      exact absurd hit (List.not_mem_nil it)
    · refine hothers k ?_ hkj it ?_
      · exact hk
      · rw [Nat.zero_add] at hit
        exact hit

/--
Witness for C5: a single failing batch (its response is `none`) on a single
bookmark leaves the mapping empty, the progress list complete, and the
bookmark absent from the mapping.
-/
theorem C5_witness :
    (getOrganizeSuggestions [BookmarkNode.mk "x" none "t" (some "u") none none]
          (fun _ => none)).1
        = (getOrganizeSuggestions [BookmarkNode.mk "x" none "t" (some "u") none none]
            (fun i => if i = 0 then some [] else none)).1
      ∧ (getOrganizeSuggestions [BookmarkNode.mk "x" none "t" (some "u") none none]
            (fun _ => none)).2.1.length
          = (chunkList 20 [BookmarkNode.mk "x" none "t" (some "u") none none]).length
      ∧ ∀ bkm ∈ (chunkList 20
            [BookmarkNode.mk "x" none "t" (some "u") none none]).getD 0 [],
          (∀ k < (chunkList 20
              [BookmarkNode.mk "x" none "t" (some "u") none none]).length, k ≠ 0 →
            ∀ it ∈ ((fun (_ : Nat) => (none : Option (List OrgItem))) k).getD [],
              it.id ≠ bkm.id) →
          mapGet (getOrganizeSuggestions
            [BookmarkNode.mk "x" none "t" (some "u") none none]
            (fun _ => none)).1 bkm.id = none :=
  C5_partial_failure_tolerance
    [BookmarkNode.mk "x" none "t" (some "u") none none] (fun _ => none) 0 rfl

theorem saveTag_mem (store : List Tag) (tag : Tag) :
    ∀ t ∈ saveTag store tag, t ∈ store ∨ t = tag := by
  intro t ht
  rw [saveTag] at ht
  by_cases hany : store.any (fun u => u.id == tag.id) = true
  · rw [if_pos hany] at ht
    obtain ⟨u, hu, hut⟩ := List.mem_map.mp ht
    by_cases huk : u.id = tag.id
    · right
      rw [← hut]
      simp [huk]
    · left
      rw [← hut]
      simp [huk]
      exact hu
  · rw [if_neg hany] at ht
    rcases List.mem_append.mp ht with h1 | h2
    · exact Or.inl h1
    · exact Or.inr (List.mem_singleton.mp h2)

theorem addOneTag_preserve (origIds : List String) (b fid name : String)
    (now : Nat) (store : List Tag)
    (h1 : ∀ t ∈ store, t.bookmarkIds ≠ [])
    (h2 : ∀ t ∈ store, t.bookmarkIds.Nodup)
    (h3 : ∀ t ∈ store, t.id ∉ origIds → t.bookmarkIds = [b]) :
    (∀ t ∈ addOneTag fid now b store name, t.bookmarkIds ≠ [])
      ∧ (∀ t ∈ addOneTag fid now b store name, t.bookmarkIds.Nodup)
      ∧ (∀ t ∈ addOneTag fid now b store name,
          t.id ∉ origIds → t.bookmarkIds = [b]) := by
  rw [addOneTag]
  by_cases hem : (normalizeTagName name).isEmpty
  · rw [if_pos hem]
    exact ⟨h1, h2, h3⟩
  · rw [if_neg hem]
    cases hfind : getTagByName store (normalizeTagName name) with
    | none =>
        dsimp only
        refine ⟨?_, ?_, ?_⟩ <;> intro t ht <;>
          rcases saveTag_mem store _ t ht with hmem | rfl
        · exact h1 t hmem
        · simp
        · exact h2 t hmem
        · simp
        · exact h3 t hmem
        · intro _; rfl
    | some existingTag =>
        dsimp only
        have hextm : existingTag ∈ store := by
          rw [getTagByName] at hfind
          exact List.mem_of_find?_eq_some hfind
        by_cases hcont : existingTag.bookmarkIds.contains b
        · rw [if_pos hcont]
          exact ⟨h1, h2, h3⟩
        · rw [if_neg hcont]
          have hnb : b ∉ existingTag.bookmarkIds := by
            simpa using hcont
          refine ⟨?_, ?_, ?_⟩ <;> intro t ht <;>
            rcases saveTag_mem store _ t ht with hmem | rfl
          · exact h1 t hmem
          · simp
          · exact h2 t hmem
          · simp only
            rw [List.nodup_append]
            refine ⟨h2 existingTag hextm, List.nodup_singleton b, ?_⟩
            intro a ha hab
            rw [List.mem_singleton] at hab
            subst hab
            exact hnb ha
          · exact h3 t hmem
          · intro hid
            exfalso
            have : existingTag.bookmarkIds = [b] := h3 existingTag hextm hid
            rw [this] at hnb
            exact hnb (List.mem_singleton.mpr rfl)

theorem addTags_preserve (fresh : Nat → String) (now : Nat) (b : String)
    (origIds : List String) :
    ∀ (names : List String) (store : List Tag) (k : Nat),
      (∀ t ∈ store, t.bookmarkIds ≠ []) →
      (∀ t ∈ store, t.bookmarkIds.Nodup) →
      (∀ t ∈ store, t.id ∉ origIds → t.bookmarkIds = [b]) →
      (∀ t ∈ addTagsToBookmark fresh now b names store k, t.bookmarkIds ≠ [])
        ∧ (∀ t ∈ addTagsToBookmark fresh now b names store k, t.bookmarkIds.Nodup)
        ∧ (∀ t ∈ addTagsToBookmark fresh now b names store k,
            t.id ∉ origIds → t.bookmarkIds = [b]) := by
  intro names
  induction names with
  | nil =>
      intro store k h1 h2 h3
      rw [addTagsToBookmark]
      exact ⟨h1, h2, h3⟩
  | cons name rest ih =>
      intro store k h1 h2 h3
      rw [addTagsToBookmark]
      obtain ⟨p1, p2, p3⟩ :=
        addOneTag_preserve origIds b (fresh k) name now store h1 h2 h3
      exact ih _ _ p1 p2 p3

/--
Claim C9: the tag-index operations preserve the invariant that a stored tag's
bookmark-id set is non-empty. `addTagsToBookmark` keeps every stored id-set
non-empty and duplicate-free, and any tag it created (its id is not among the
original store's ids) carries exactly the singleton id set of the added
bookmark; `removeTagFromBookmark` keeps every remaining id-set non-empty, and
when the found tag's id-set loses its last bookmark id the tag is deleted
entirely (no tag with that id remains), otherwise the tag is persisted with
the reduced, non-empty id-set.
-/
theorem C9_tag_set_invariants (fresh : Nat → String) (now : Nat) (b : String)
    (names : List String) (store : List Tag) (tagId : String)
    (h1 : ∀ t ∈ store, t.bookmarkIds ≠ [])
    (h2 : ∀ t ∈ store, t.bookmarkIds.Nodup) :
    (∀ t ∈ addTagsToBookmark fresh now b names store 0, t.bookmarkIds ≠ [])
      ∧ (∀ t ∈ addTagsToBookmark fresh now b names store 0, t.bookmarkIds.Nodup)
      ∧ (∀ t ∈ addTagsToBookmark fresh now b names store 0,
          t.id ∉ store.map (fun u => u.id) → t.bookmarkIds = [b])
      ∧ (∀ t ∈ removeTagFromBookmark store b tagId, t.bookmarkIds ≠ [])
      ∧ ∀ tg, store.find? (fun t => t.id == tagId) = some tg →
          ((tg.bookmarkIds.filter (fun i => i != b)).isEmpty = true →
            ∀ t ∈ removeTagFromBookmark store b tagId, t.id ≠ tagId)
          ∧ ((tg.bookmarkIds.filter (fun i => i != b)).isEmpty = false →
            Tag.mk tg.id tg.name (tg.bookmarkIds.filter (fun i => i != b))
              tg.createdAt ∈ removeTagFromBookmark store b tagId) := by
  obtain ⟨p1, p2, p3⟩ := addTags_preserve fresh now b
    (store.map (fun u => u.id)) names store 0 h1 h2
    (fun t ht hid => absurd (List.mem_map.mpr ⟨t, ht, rfl⟩) hid)
  refine ⟨p1, p2, p3, ?_, ?_⟩
  · rw [removeTagFromBookmark]
    cases hf : store.find? (fun t => t.id == tagId) with
    | none => exact h1
    | some tg =>
        dsimp only
        by_cases hemp : (tg.bookmarkIds.filter (fun i => i != b)).isEmpty = true
        · rw [if_pos hemp]
          intro t ht
          exact h1 t (List.mem_of_mem_filter ht)
        · rw [if_neg hemp]
          intro t ht
          obtain ⟨u, hu, hut⟩ := List.mem_map.mp ht
          by_cases huk : u.id = tagId
          · rw [← hut]
            simp only [huk, beq_self_eq_true, if_true]
            intro hnil
            rw [hnil] at hemp
            exact hemp rfl
          · rw [← hut]
            have hukb : (u.id == tagId) = false := by simpa using huk
            rw [hukb]
            simp only [Bool.false_eq_true, if_false]
            exact h1 u hu
  · intro tg hfind
    rw [removeTagFromBookmark, hfind]
    dsimp only
    constructor
    · intro hemp t ht
      rw [if_pos hemp] at ht
      have := List.of_mem_filter ht
      simpa using this
    · intro hemp
      rw [if_neg (by rw [hemp]; exact Bool.false_ne_true)]
      refine List.mem_map.mpr ⟨tg, List.mem_of_find?_eq_some hfind, ?_⟩
      have htg : (tg.id == tagId) = true := by
        have := List.find?_some hfind
        simpa using this
      rw [htg]
      rfl

/--
Witness for C9: on a store holding tag `ai` over bookmarks `x, y`, adding tag
`ml` to `x` and removing `x` from tag `t1` both preserve the non-empty id-set
invariant, with the deletion/persist behavior as stated.
-/
theorem C9_witness :
    (∀ t ∈ addTagsToBookmark (fun _ => "f9") 5 "x" ["ml"]
        [Tag.mk "t1" "ai" ["x", "y"] 0] 0, t.bookmarkIds ≠ [])
      ∧ (∀ t ∈ addTagsToBookmark (fun _ => "f9") 5 "x" ["ml"]
          [Tag.mk "t1" "ai" ["x", "y"] 0] 0, t.bookmarkIds.Nodup)
      ∧ (∀ t ∈ addTagsToBookmark (fun _ => "f9") 5 "x" ["ml"]
          [Tag.mk "t1" "ai" ["x", "y"] 0] 0,
          t.id ∉ ([Tag.mk "t1" "ai" ["x", "y"] 0]).map (fun u => u.id) →
            t.bookmarkIds = ["x"])
      ∧ (∀ t ∈ removeTagFromBookmark [Tag.mk "t1" "ai" ["x", "y"] 0] "x" "t1",
          t.bookmarkIds ≠ [])
      ∧ ∀ tg, ([Tag.mk "t1" "ai" ["x", "y"] 0]).find?
            (fun t => t.id == "t1") = some tg →
          ((tg.bookmarkIds.filter (fun i => i != "x")).isEmpty = true →
            ∀ t ∈ removeTagFromBookmark [Tag.mk "t1" "ai" ["x", "y"] 0] "x" "t1",
              t.id ≠ "t1")
          ∧ ((tg.bookmarkIds.filter (fun i => i != "x")).isEmpty = false →
            Tag.mk tg.id tg.name (tg.bookmarkIds.filter (fun i => i != "x"))
              tg.createdAt
              ∈ removeTagFromBookmark [Tag.mk "t1" "ai" ["x", "y"] 0] "x" "t1") :=
  C9_tag_set_invariants (fun _ => "f9") 5 "x" ["ml"]
    [Tag.mk "t1" "ai" ["x", "y"] 0] "t1" (by decide) (by decide)
